import Mathlib

/-!
Verification of the labeling-function generator layer
(LabelingFunctionGeneratorUtils.py): a shallow embedding of the six
builder functions and the single-document check functions they close
over, together with proofs of the specified properties.

External collaborators (the TextBlob sentiment scorer and the thefuzz
token_sort_ratio scorer) are opaque to the source and are modelled as
function parameters.  Python str.lower is modelled characterwise on
ASCII.  The source splices each keyword raw into the regex pattern
([^a-z0-9])kw([^a-z0-9]), so two models of the search are developed:
kwSearch reads the keyword as a literal string, which is exact for
keywords made of regex-ordinary characters, and kwSearchRe interprets
the spliced keyword over a regex fragment in which the dot matches any
character other than a newline, which separates the two readings on
keywords containing a dot.
-/

namespace SnorCall

/-- An entity recognized in a document, carrying the two attributes the
labeling functions read: its text span and its NER tag. -/
structure Ent where
  text : String
  label_ : String

/-- A parsed document as consumed by every labeling function: raw text
plus the ordered entity list. -/
structure SpacyDoc where
  text : String
  ents : List Ent

/-- The abstention sentinel shared by every produced labeling function. -/
def ABSTAIN : Int := -1

/-- ASCII model of Python str.lower applied to one character. -/
def lowerChar (c : Char) : Char :=
  if 65 ≤ c.toNat ∧ c.toNat ≤ 90 then Char.ofNat (c.toNat + 32) else c

/-- Lowercased character list of a string: model of text.lower(). -/
def strLower (s : String) : List Char :=
  s.data.map lowerChar

/-- Lowercased string: model of s.lower() kept at type String. -/
def lowerS (s : String) : String :=
  ⟨strLower s⟩

/-- Membership test for the regex character class [^a-z0-9]: true when
the character lies outside both ranges. -/
def isBound (c : Char) : Bool :=
  !(decide (97 ≤ c.toNat ∧ c.toNat ≤ 122) || decide (48 ≤ c.toNat ∧ c.toNat ≤ 57))

/-- Tests that the keyword is an initial run of the remaining text and
that the character immediately after it lies in [^a-z0-9]; together with
the bounding character consumed by kwSearch this is one full match of
the pattern ([^a-z0-9])kw([^a-z0-9]). -/
def kwHere : List Char → List Char → Bool
  | [], c :: _ => isBound c
  | [], [] => false
  | _ :: _, [] => false
  | k :: ks, c :: cs => k == c && kwHere ks cs

/-- Literal reading of re.search with the pattern
([^a-z0-9])kw([^a-z0-9]) on the given character list: true when some
position carries a bounding character followed by the keyword, taken as
a literal string, followed by a bounding character.  This reading is
exact for keywords made of regex-ordinary characters; the source
splices the keyword raw into the pattern, and kwSearchRe below models
the resulting regex interpretation on keywords containing a dot. -/
def kwSearch (kw : List Char) : List Char → Bool
  | [] => false
  | c :: rest => (isBound c && kwHere kw rest) || kwSearch kw rest

/-- Entity-list scan of CheckNERTagPresence: the first entity whose tag
equals NERTag yields ReturnLabel, a completed scan yields ABSTAIN. -/
def CheckNERTagPresenceEnts (NERTag : String) (ReturnLabel : Int) : List Ent → Int
  | [] => ABSTAIN
  | e :: rest =>
      if e.label_ == NERTag then ReturnLabel
      else CheckNERTagPresenceEnts NERTag ReturnLabel rest

/-- The function closed over by NERTagPresence (source lines 76-80). -/
def CheckNERTagPresence (NERTag : String) (ReturnLabel : Int) (doc : SpacyDoc) : Int :=
  CheckNERTagPresenceEnts NERTag ReturnLabel doc.ents

/-- Entity-list scan of CheckNERTagAbsence: the first entity whose tag
equals NERTag yields ABSTAIN, a completed scan yields ReturnLabel. -/
def CheckNERTagAbsenceEnts (NERTag : String) (ReturnLabel : Int) : List Ent → Int
  | [] => ReturnLabel
  | e :: rest =>
      if e.label_ == NERTag then ABSTAIN
      else CheckNERTagAbsenceEnts NERTag ReturnLabel rest

/-- The function closed over by NERTagAbsence (source lines 103-107). -/
def CheckNERTagAbsence (NERTag : String) (ReturnLabel : Int) (doc : SpacyDoc) : Int :=
  CheckNERTagAbsenceEnts NERTag ReturnLabel doc.ents

/-- Output of the external sentiment scorer: polarity and subjectivity,
modelled as rationals. -/
structure Sentiment where
  polarity : ℚ
  subjectivity : ℚ

/-- The function closed over by SentimentChecker (source lines 153-163),
parameterized by the external TextBlob scorer: ReturnLabel exactly when
all four strict threshold comparisons hold, ABSTAIN otherwise. -/
def TextBlobSentimentChecker (textblob : String → Sentiment)
    (PolarityLower PolarityUpper SubjectivityLower SubjectivityUpper : ℚ)
    (ReturnLabel : Int) (doc : SpacyDoc) : Int :=
  let scores := textblob doc.text
  if scores.polarity < PolarityUpper ∧ scores.polarity > PolarityLower ∧
      scores.subjectivity < SubjectivityUpper ∧ scores.subjectivity > SubjectivityLower
  then ReturnLabel
  else ABSTAIN

/-- Keyword-list scan of CheckForKeywordExactMatch over the already
lowercased document text: the first keyword whose bounded pattern is
found yields ReturnLabel, a completed scan yields ABSTAIN. -/
def CheckForKeywordExactMatchKws (ReturnLabel : Int) (textL : List Char) : List String → Int
  | [] => ABSTAIN
  | kw :: rest =>
      if kwSearch kw.data textL then ReturnLabel
      else CheckForKeywordExactMatchKws ReturnLabel textL rest

/-- The function closed over by KeywordPresenceExactMatch (source lines
191-195): the regex search runs on the lowercased document text while
each keyword is used as written. -/
def CheckForKeywordExactMatch (ListOfKeywords : List String) (ReturnLabel : Int)
    (doc : SpacyDoc) : Int :=
  CheckForKeywordExactMatchKws ReturnLabel (strLower doc.text) ListOfKeywords

/-- Keyword-list scan of CheckForKeywordAbsenceExactMatch: the first
found keyword yields ABSTAIN, a completed scan yields ReturnLabel. -/
def CheckForKeywordAbsenceExactMatchKws (ReturnLabel : Int) (textL : List Char) :
    List String → Int
  | [] => ReturnLabel
  | kw :: rest =>
      if kwSearch kw.data textL then ABSTAIN
      else CheckForKeywordAbsenceExactMatchKws ReturnLabel textL rest

/-- The function closed over by KeywordAbsenceExactMatch (source lines
266-270). -/
def CheckForKeywordAbsenceExactMatch (ListOfKeywords : List String) (ReturnLabel : Int)
    (doc : SpacyDoc) : Int :=
  CheckForKeywordAbsenceExactMatchKws ReturnLabel (strLower doc.text) ListOfKeywords

/-- Inner gazetteer loop of CheckForNamedEntityFuzzyMatch: folds the
strict-improvement update of max_ratio over the deduplicated keyword
list (list(set(ListOfKeywords))), both comparands lowercased, starting
from the incoming running maximum. -/
def gazetteerMax (fuzzRatio : String → String → Nat) (entText : String)
    (kws : List String) (m0 : Nat) : Nat :=
  kws.dedup.foldl
    (fun m name =>
      let r := fuzzRatio (lowerS entText) (lowerS name)
      if r > m then r else m)
    m0

/-- Entity-list scan of CheckForNamedEntityFuzzyMatch, carrying the
running max_ratio, which the source initializes once and never resets
between entities: at each entity of the target tag the gazetteer loop
updates the running maximum, and the scan returns ReturnLabel as soon
as the running maximum reaches FuzzyMatchThreshold. -/
def CheckForNamedEntityFuzzyMatchEnts (fuzzRatio : String → String → Nat)
    (kws : List String) (NERTag : String) (FuzzyMatchThreshold : Int)
    (ReturnLabel : Int) : Nat → List Ent → Int
  | _, [] => ABSTAIN
  | maxRatio, e :: rest =>
      if e.label_ == NERTag then
        let m := gazetteerMax fuzzRatio e.text kws maxRatio
        if (m : Int) ≥ FuzzyMatchThreshold then ReturnLabel
        else CheckForNamedEntityFuzzyMatchEnts fuzzRatio kws NERTag FuzzyMatchThreshold
          ReturnLabel m rest
      else CheckForNamedEntityFuzzyMatchEnts fuzzRatio kws NERTag FuzzyMatchThreshold
        ReturnLabel maxRatio rest

/-- The function closed over by NamedEntityFuzzyMatch (source lines
225-240), parameterized by the external fuzz.token_sort_ratio scorer;
the running maximum starts at 0. -/
def CheckForNamedEntityFuzzyMatch (fuzzRatio : String → String → Nat)
    (ListOfKeywords : List String) (NERTag : String) (FuzzyMatchThreshold : Int)
    (ReturnLabel : Int) (doc : SpacyDoc) : Int :=
  CheckForNamedEntityFuzzyMatchEnts fuzzRatio ListOfKeywords NERTag FuzzyMatchThreshold
    ReturnLabel 0 doc.ents

/-- Model of the kwargs dictionary handed to each builder: every key any
builder reads, each possibly absent.  A Python kwargs lookup of an
absent key raises KeyError at construction time; here a builder returns
none in that case. -/
structure Kwargs where
  LabelingFunctionName : Option String
  NERTag : Option String
  ReturnLabel : Option Int
  SubjectivityLower : Option ℚ
  SubjectivityUpper : Option ℚ
  PolarityLower : Option ℚ
  PolarityUpper : Option ℚ
  ListOfKeywords : Option (List String)
  FuzzyMatchThreshold : Option Int

/-- Builder NERTagPresence (source lines 59-84): reads its three keys
unconditionally, then closes over the check function.  The name key is
read even though the returned behavior does not depend on it. -/
def NERTagPresence (k : Kwargs) : Option (SpacyDoc → Int) := do
  let _name ← k.LabelingFunctionName
  let tag ← k.NERTag
  let rl ← k.ReturnLabel
  pure (CheckNERTagPresence tag rl)

/-- Builder NERTagAbsence (source lines 86-111). -/
def NERTagAbsence (k : Kwargs) : Option (SpacyDoc → Int) := do
  let _name ← k.LabelingFunctionName
  let tag ← k.NERTag
  let rl ← k.ReturnLabel
  pure (CheckNERTagAbsence tag rl)

/-- Builder SentimentChecker (source lines 114-166), parameterized by
the external sentiment scorer; keys are read in source order. -/
def SentimentChecker (textblob : String → Sentiment) (k : Kwargs) :
    Option (SpacyDoc → Int) := do
  let _name ← k.LabelingFunctionName
  let sl ← k.SubjectivityLower
  let su ← k.SubjectivityUpper
  let pl ← k.PolarityLower
  let pu ← k.PolarityUpper
  let rl ← k.ReturnLabel
  pure (TextBlobSentimentChecker textblob pl pu sl su rl)

/-- Builder KeywordPresenceExactMatch (source lines 171-198). -/
def KeywordPresenceExactMatch (k : Kwargs) : Option (SpacyDoc → Int) := do
  let _name ← k.LabelingFunctionName
  let kws ← k.ListOfKeywords
  let rl ← k.ReturnLabel
  pure (CheckForKeywordExactMatch kws rl)

/-- Builder NamedEntityFuzzyMatch (source lines 201-243), parameterized
by the external fuzzy scorer; keys are read in source order. -/
def NamedEntityFuzzyMatch (fuzzRatio : String → String → Nat) (k : Kwargs) :
    Option (SpacyDoc → Int) := do
  let _name ← k.LabelingFunctionName
  let kws ← k.ListOfKeywords
  let rl ← k.ReturnLabel
  let th ← k.FuzzyMatchThreshold
  let tag ← k.NERTag
  pure (CheckForNamedEntityFuzzyMatch fuzzRatio kws tag th rl)

/-- Builder KeywordAbsenceExactMatch (source lines 246-273). -/
def KeywordAbsenceExactMatch (k : Kwargs) : Option (SpacyDoc → Int) := do
  let _name ← k.LabelingFunctionName
  let kws ← k.ListOfKeywords
  let rl ← k.ReturnLabel
  pure (CheckForKeywordAbsenceExactMatch kws rl)

/-- Spec-side reading of the keyword boundary rule: the keyword occurs,
as a literal string, somewhere in the lowercased document text with a
character of the class [^a-z0-9] immediately before it and immediately
after it. -/
def OccursBounded (kw : String) (text : String) : Prop :=
  ∃ pre c1 c2 post, strLower text = pre ++ c1 :: (kw.data ++ c2 :: post) ∧
    isBound c1 = true ∧ isBound c2 = true

/-- Spec-side per-entity maximum for the fuzzy matcher: the maximum of
the similarity scores of the lowercased entity text against the
set-deduplicated, lowercased gazetteer entries, 0 for an empty
gazetteer. -/
def listScoreMax (fuzzRatio : String → String → Nat) (entText : String)
    (kws : List String) : Nat :=
  kws.dedup.foldr (fun name acc => max (fuzzRatio (lowerS entText) (lowerS name)) acc) 0

/-- Modelled from the spec: the reference algorithm of the fuzzy matcher
with the per-entity maximum recomputed from scratch for each entity of
the target tag, returning ReturnLabel at the first entity whose
per-entity maximum reaches the threshold. -/
def FuzzyMatchRefEnts (fuzzRatio : String → String → Nat) (kws : List String)
    (NERTag : String) (FuzzyMatchThreshold : Int) (ReturnLabel : Int) : List Ent → Int
  | [] => ABSTAIN
  | e :: rest =>
      if e.label_ == NERTag then
        if (listScoreMax fuzzRatio e.text kws : Int) ≥ FuzzyMatchThreshold then ReturnLabel
        else FuzzyMatchRefEnts fuzzRatio kws NERTag FuzzyMatchThreshold ReturnLabel rest
      else FuzzyMatchRefEnts fuzzRatio kws NERTag FuzzyMatchThreshold ReturnLabel rest

/-- Modelled from the spec: document-level entry point of the reference
fuzzy-match algorithm. -/
def FuzzyMatchRef (fuzzRatio : String → String → Nat) (ListOfKeywords : List String)
    (NERTag : String) (FuzzyMatchThreshold : Int) (ReturnLabel : Int)
    (doc : SpacyDoc) : Int :=
  FuzzyMatchRefEnts fuzzRatio ListOfKeywords NERTag FuzzyMatchThreshold ReturnLabel doc.ents

/-- Single-character element of the modelled regex fragment: the dot
wildcard or one literal character. -/
inductive RElem where
  | dot : RElem
  | lit : Char → RElem

/-- Tests that a character is regex-ordinary, that is, none of the
metacharacters that Python re treats specially outside a character
class; such a character spliced into a pattern matches itself
literally. -/
def regexOrdinary (c : Char) : Bool :=
  !(c == '.' || c == '^' || c == '$' || c == '*' || c == '+' || c == '?' ||
    c == '[' || c == ']' || c == '\\' || c == '|' || c == '(' || c == ')' ||
    c == '\x7b' || c == '\x7d')

/-- Interprets the raw keyword characters the source splices into its
regex pattern, over the modelled fragment: a dot becomes the wildcard,
a regex-ordinary character becomes a literal, and a keyword containing
any other metacharacter lies outside the modelled fragment and yields
none. -/
def compileKw : List Char → Option (List RElem)
  | [] => some []
  | c :: cs =>
      if c == '.' then
        Option.map (fun es => RElem.dot :: es) (compileKw cs)
      else if regexOrdinary c then
        Option.map (fun es => RElem.lit c :: es) (compileKw cs)
      else none

/-- One regex element against one character: the dot matches any
character other than a newline (re.DOTALL is not set in the source), a
literal matches exactly itself. -/
def elemMatches : RElem → Char → Bool
  | RElem.dot, c => !(c == '\n')
  | RElem.lit k, c => k == c

/-- Analogue of kwHere for compiled regex elements: the elements match
the initial characters of the remaining text one-to-one and the
character immediately after them lies in [^a-z0-9]. -/
def elemsHere : List RElem → List Char → Bool
  | [], c :: _ => isBound c
  | [], [] => false
  | _ :: _, [] => false
  | e :: es, c :: cs => elemMatches e c && elemsHere es cs

/-- Analogue of kwSearch for compiled regex elements: some position of
the text carries a bounding character followed by a one-to-one match of
the elements followed by a bounding character. -/
def reSearch (es : List RElem) : List Char → Bool
  | [] => false
  | c :: rest => (isBound c && elemsHere es rest) || reSearch es rest

/-- Model of re.search with the keyword spliced raw into the pattern
([^a-z0-9])kw([^a-z0-9]), faithful on the modelled regex fragment:
none when the keyword contains a metacharacter outside the fragment,
otherwise the search verdict with dots interpreted as wildcards. -/
def kwSearchRe (kw : List Char) (t : List Char) : Option Bool :=
  Option.map (fun es => reSearch es t) (compileKw kw)

/-- Keyword-list scan of CheckForKeywordExactMatch under the regex
interpretation of the spliced keywords: the first keyword whose pattern
is found yields ReturnLabel, a completed scan yields ABSTAIN, and a
scanned keyword outside the modelled regex fragment yields none. -/
def CheckForKeywordExactMatchReKws (ReturnLabel : Int) (textL : List Char) :
    List String → Option Int
  | [] => some ABSTAIN
  | kw :: rest =>
      match kwSearchRe kw.data textL with
      | none => none
      | some true => some ReturnLabel
      | some false => CheckForKeywordExactMatchReKws ReturnLabel textL rest

/-- The function closed over by KeywordPresenceExactMatch (source lines
191-195) with the spliced keyword interpreted as a regex over the
modelled fragment rather than as a literal string. -/
def CheckForKeywordExactMatchRe (ListOfKeywords : List String) (ReturnLabel : Int)
    (doc : SpacyDoc) : Option Int :=
  CheckForKeywordExactMatchReKws ReturnLabel (strLower doc.text) ListOfKeywords

lemma checkNERTagPresenceEnts_eq (tag : String) (rl : Int) (l : List Ent) :
    CheckNERTagPresenceEnts tag rl l =
      if l.any (fun e => e.label_ == tag) then rl else ABSTAIN := by
  induction l with
  | nil => simp [CheckNERTagPresenceEnts]
  | cons e rest ih =>
      by_cases he : e.label_ == tag <;>
        simp [CheckNERTagPresenceEnts, List.any_cons, he, ih]

lemma checkNERTagAbsenceEnts_eq (tag : String) (rl : Int) (l : List Ent) :
    CheckNERTagAbsenceEnts tag rl l =
      if l.any (fun e => e.label_ == tag) then ABSTAIN else rl := by
  induction l with
  | nil => simp [CheckNERTagAbsenceEnts]
  | cons e rest ih =>
      by_cases he : e.label_ == tag <;>
        simp [CheckNERTagAbsenceEnts, List.any_cons, he, ih]

lemma checkForKeywordExactMatchKws_eq (rl : Int) (textL : List Char) (kws : List String) :
    CheckForKeywordExactMatchKws rl textL kws =
      if kws.any (fun kw => kwSearch kw.data textL) then rl else ABSTAIN := by
  induction kws with
  | nil => simp [CheckForKeywordExactMatchKws]
  | cons kw rest ih =>
      by_cases hk : kwSearch kw.data textL <;>
        simp [CheckForKeywordExactMatchKws, List.any_cons, hk, ih]

lemma checkForKeywordAbsenceExactMatchKws_eq (rl : Int) (textL : List Char)
    (kws : List String) :
    CheckForKeywordAbsenceExactMatchKws rl textL kws =
      if kws.any (fun kw => kwSearch kw.data textL) then ABSTAIN else rl := by
  induction kws with
  | nil => simp [CheckForKeywordAbsenceExactMatchKws]
  | cons kw rest ih =>
      by_cases hk : kwSearch kw.data textL <;>
        simp [CheckForKeywordAbsenceExactMatchKws, List.any_cons, hk, ih]

/-- Claim C1: for every configuration and document, NERTagPresence
returns ReturnLabel exactly when NERTagAbsence with the same tag returns
ABSTAIN, and NERTagPresence returns ABSTAIN exactly when NERTagAbsence
returns ReturnLabel; on an empty entity list presence abstains and
absence returns ReturnLabel. -/
theorem ner_presence_absence_complement (tag : String) (rl : Int) (doc : SpacyDoc) :
    ((CheckNERTagPresence tag rl doc = rl ↔ CheckNERTagAbsence tag rl doc = ABSTAIN) ∧
      (CheckNERTagPresence tag rl doc = ABSTAIN ↔ CheckNERTagAbsence tag rl doc = rl)) ∧
    (doc.ents = [] →
      CheckNERTagPresence tag rl doc = ABSTAIN ∧ CheckNERTagAbsence tag rl doc = rl) := by
  unfold CheckNERTagPresence CheckNERTagAbsence
  rw [checkNERTagPresenceEnts_eq, checkNERTagAbsenceEnts_eq]
  constructor
  · by_cases h : doc.ents.any (fun e => e.label_ == tag) <;> simp [h, ABSTAIN, eq_comm]
  · intro h
    simp [h]

/-- Witness for C1 at a concrete empty-entity document. -/
theorem ner_presence_absence_complement_w :
    CheckNERTagPresence "ORG" 5 ⟨"acme", []⟩ = ABSTAIN ∧
      CheckNERTagAbsence "ORG" 5 ⟨"acme", []⟩ = 5 :=
  (ner_presence_absence_complement "ORG" 5 ⟨"acme", []⟩).2 rfl

/-- Claim C2: for every document and keyword list, KeywordPresence
returns ReturnLabel exactly when KeywordAbsence with the same list
returns ABSTAIN, and vice versa. -/
theorem keyword_presence_absence_complement (kws : List String) (rl : Int)
    (doc : SpacyDoc) :
    (CheckForKeywordExactMatch kws rl doc = rl ↔
      CheckForKeywordAbsenceExactMatch kws rl doc = ABSTAIN) ∧
    (CheckForKeywordExactMatch kws rl doc = ABSTAIN ↔
      CheckForKeywordAbsenceExactMatch kws rl doc = rl) := by
  unfold CheckForKeywordExactMatch CheckForKeywordAbsenceExactMatch
  rw [checkForKeywordExactMatchKws_eq, checkForKeywordAbsenceExactMatchKws_eq]
  by_cases h : kws.any (fun kw => kwSearch kw.data (strLower doc.text)) <;>
    simp [h, ABSTAIN, eq_comm]

/-- Claim C10: on the empty keyword list, KeywordPresence abstains on
every document and KeywordAbsence returns ReturnLabel on every
document. -/
theorem keyword_empty_list (rl : Int) (doc : SpacyDoc) :
    CheckForKeywordExactMatch [] rl doc = ABSTAIN ∧
      CheckForKeywordAbsenceExactMatch [] rl doc = rl :=
  ⟨rfl, rfl⟩

/-- Claim C6: the keyword matcher requires a bounding character on both
sides, so a keyword at the very start of the text does not match (text
"apple pie" with keyword "apple" abstains, " apple pie " with a leading
space matches), and neither does one at the very end ("pie" in
"apple pie" abstains). -/
theorem keyword_boundary_strictness (rl : Int) :
    CheckForKeywordExactMatch ["apple"] rl ⟨"apple pie", []⟩ = ABSTAIN ∧
      CheckForKeywordExactMatch ["apple"] rl ⟨" apple pie ", []⟩ = rl ∧
      CheckForKeywordExactMatch ["pie"] rl ⟨"apple pie", []⟩ = ABSTAIN := by
  have h1 : kwSearch "apple".data (strLower "apple pie") = false := by decide
  have h2 : kwSearch "apple".data (strLower " apple pie ") = true := by decide
  have h3 : kwSearch "pie".data (strLower "apple pie") = false := by decide
  refine ⟨?_, ?_, ?_⟩ <;>
    simp [CheckForKeywordExactMatch, CheckForKeywordExactMatchKws, h1, h2, h3]

/-- Claim C5: the sentiment checker returns ReturnLabel exactly when all
four strict threshold inequalities hold; with the sentinel excluded as a
label the two directions are a biconditional; a polarity or
subjectivity exactly equal to one of its own thresholds abstains; and a
degenerate interval (lower threshold at or above its upper threshold)
abstains on every document. -/
theorem sentiment_strict_thresholds (textblob : String → Sentiment)
    (pl pu sl su : ℚ) (rl : Int) (doc : SpacyDoc) :
    (TextBlobSentimentChecker textblob pl pu sl su rl doc =
      if pl < (textblob doc.text).polarity ∧ (textblob doc.text).polarity < pu ∧
          sl < (textblob doc.text).subjectivity ∧ (textblob doc.text).subjectivity < su
        then rl else ABSTAIN) ∧
    (rl ≠ ABSTAIN →
      (TextBlobSentimentChecker textblob pl pu sl su rl doc = rl ↔
        pl < (textblob doc.text).polarity ∧ (textblob doc.text).polarity < pu ∧
          sl < (textblob doc.text).subjectivity ∧ (textblob doc.text).subjectivity < su)) ∧
    (((textblob doc.text).polarity = pl ∨ (textblob doc.text).polarity = pu ∨
        (textblob doc.text).subjectivity = sl ∨ (textblob doc.text).subjectivity = su) →
      TextBlobSentimentChecker textblob pl pu sl su rl doc = ABSTAIN) ∧
    ((pu ≤ pl ∨ su ≤ sl) →
      TextBlobSentimentChecker textblob pl pu sl su rl doc = ABSTAIN) := by
  have hite : TextBlobSentimentChecker textblob pl pu sl su rl doc =
      if pl < (textblob doc.text).polarity ∧ (textblob doc.text).polarity < pu ∧
          sl < (textblob doc.text).subjectivity ∧ (textblob doc.text).subjectivity < su
        then rl else ABSTAIN := by
    show (if (textblob doc.text).polarity < pu ∧ (textblob doc.text).polarity > pl ∧
        (textblob doc.text).subjectivity < su ∧ (textblob doc.text).subjectivity > sl
      then rl else ABSTAIN) = _
    by_cases h : pl < (textblob doc.text).polarity ∧ (textblob doc.text).polarity < pu ∧
        sl < (textblob doc.text).subjectivity ∧ (textblob doc.text).subjectivity < su
    · rw [if_pos ⟨h.2.1, h.1, h.2.2.2, h.2.2.1⟩, if_pos h]
    · rw [if_neg (fun hd => h ⟨hd.2.1, hd.1, hd.2.2.2, hd.2.2.1⟩), if_neg h]
  refine ⟨hite, ?_, ?_, ?_⟩
  · intro hrl
    rw [hite]
    by_cases hc : pl < (textblob doc.text).polarity ∧ (textblob doc.text).polarity < pu ∧
        sl < (textblob doc.text).subjectivity ∧ (textblob doc.text).subjectivity < su
    · simp [hc]
    · rw [if_neg hc]
      constructor
      · intro he
        exact absurd he.symm hrl
      · intro hcc
        exact absurd hcc hc
  · intro hb
    rw [hite, if_neg]
    rintro ⟨h1, h2, h3, h4⟩
    rcases hb with e | e | e | e <;> linarith
  · intro hd
    rw [hite, if_neg]
    rintro ⟨h1, h2, h3, h4⟩
    rcases hd with e | e <;> linarith

/-- Witness for C5 at a concrete boundary configuration: polarity
exactly at the lower polarity threshold abstains. -/
theorem sentiment_strict_thresholds_w :
    TextBlobSentimentChecker (fun _ => ⟨0, 0⟩) 0 1 (-1) 1 9 ⟨"neutral text", []⟩ = ABSTAIN :=
  (sentiment_strict_thresholds (fun _ => ⟨0, 0⟩) 0 1 (-1) 1 9
    ⟨"neutral text", []⟩).2.2.1 (Or.inl rfl)

lemma fuzzyEnts_label_or_abstain (f : String → String → Nat) (kws : List String)
    (tag : String) (th rl : Int) :
    ∀ (l : List Ent) (m0 : Nat),
      CheckForNamedEntityFuzzyMatchEnts f kws tag th rl m0 l = rl ∨
        CheckForNamedEntityFuzzyMatchEnts f kws tag th rl m0 l = ABSTAIN := by
  intro l
  induction l with
  | nil => intro m0; right; rfl
  | cons e rest ih =>
      intro m0
      by_cases he : e.label_ == tag
      · by_cases hth : (gazetteerMax f e.text kws m0 : Int) ≥ th
        · left
          simp [CheckForNamedEntityFuzzyMatchEnts, he, hth]
        · have := ih (gazetteerMax f e.text kws m0)
          simpa [CheckForNamedEntityFuzzyMatchEnts, he, hth] using this
      · have := ih m0
        simpa [CheckForNamedEntityFuzzyMatchEnts, he] using this

/-- Claim C8: every produced function returns either the configured
ReturnLabel or the sentinel ABSTAIN, which equals -1, on every document,
for all six builders. -/
theorem outputs_label_or_abstain :
    ABSTAIN = -1 ∧
    (∀ (tag : String) (rl : Int) (doc : SpacyDoc),
      CheckNERTagPresence tag rl doc = rl ∨ CheckNERTagPresence tag rl doc = ABSTAIN) ∧
    (∀ (tag : String) (rl : Int) (doc : SpacyDoc),
      CheckNERTagAbsence tag rl doc = rl ∨ CheckNERTagAbsence tag rl doc = ABSTAIN) ∧
    (∀ (textblob : String → Sentiment) (pl pu sl su : ℚ) (rl : Int) (doc : SpacyDoc),
      TextBlobSentimentChecker textblob pl pu sl su rl doc = rl ∨
        TextBlobSentimentChecker textblob pl pu sl su rl doc = ABSTAIN) ∧
    (∀ (kws : List String) (rl : Int) (doc : SpacyDoc),
      CheckForKeywordExactMatch kws rl doc = rl ∨
        CheckForKeywordExactMatch kws rl doc = ABSTAIN) ∧
    (∀ (kws : List String) (rl : Int) (doc : SpacyDoc),
      CheckForKeywordAbsenceExactMatch kws rl doc = rl ∨
        CheckForKeywordAbsenceExactMatch kws rl doc = ABSTAIN) ∧
    (∀ (f : String → String → Nat) (kws : List String) (tag : String) (th rl : Int)
        (doc : SpacyDoc),
      CheckForNamedEntityFuzzyMatch f kws tag th rl doc = rl ∨
        CheckForNamedEntityFuzzyMatch f kws tag th rl doc = ABSTAIN) := by
  refine ⟨rfl, ?_, ?_, ?_, ?_, ?_, ?_⟩
  · intro tag rl doc
    rw [CheckNERTagPresence, checkNERTagPresenceEnts_eq]
    by_cases h : doc.ents.any (fun e => e.label_ == tag) <;> simp [h]
  · intro tag rl doc
    rw [CheckNERTagAbsence, checkNERTagAbsenceEnts_eq]
    by_cases h : doc.ents.any (fun e => e.label_ == tag) <;> simp [h]
  · intro textblob pl pu sl su rl doc
    by_cases h : (textblob doc.text).polarity < pu ∧ (textblob doc.text).polarity > pl ∧
        (textblob doc.text).subjectivity < su ∧ (textblob doc.text).subjectivity > sl
    · left
      simp [TextBlobSentimentChecker, h]
    · right
      simp [TextBlobSentimentChecker, h]
  · intro kws rl doc
    rw [CheckForKeywordExactMatch, checkForKeywordExactMatchKws_eq]
    by_cases h : kws.any (fun kw => kwSearch kw.data (strLower doc.text)) <;> simp [h]
  · intro kws rl doc
    rw [CheckForKeywordAbsenceExactMatch, checkForKeywordAbsenceExactMatchKws_eq]
    by_cases h : kws.any (fun kw => kwSearch kw.data (strLower doc.text)) <;> simp [h]
  · intro f kws tag th rl doc
    exact fuzzyEnts_label_or_abstain f kws tag th rl doc.ents 0

lemma kwHere_iff (kw rest : List Char) :
    kwHere kw rest = true ↔ ∃ c2 post, rest = kw ++ c2 :: post ∧ isBound c2 = true := by
  induction kw generalizing rest with
  | nil =>
      cases rest with
      | nil =>
          simp only [kwHere, List.nil_append]
          constructor
          · intro h
            exact absurd h (by simp)
          · rintro ⟨c2, post, he, hb⟩
            exact absurd he (by simp)
      | cons c cs =>
          simp only [kwHere, List.nil_append]
          constructor
          · intro h
            exact ⟨c, cs, rfl, h⟩
          · rintro ⟨c2, post, he, hb⟩
            injection he with h1 h2
            rw [h1]
            exact hb
  | cons k ks ih =>
      cases rest with
      | nil =>
          simp only [kwHere, List.cons_append]
          constructor
          · intro h
            exact absurd h (by simp)
          · rintro ⟨c2, post, he, hb⟩
            exact absurd he (by simp)
      | cons c cs =>
          rw [kwHere, Bool.and_eq_true]
          simp only [List.cons_append]
          constructor
          · rintro ⟨hkc, hrest⟩
            obtain ⟨c2, post, he, hb⟩ := (ih cs).mp hrest
            have hk : k = c := by simpa using hkc
            exact ⟨c2, post, by rw [hk, he], hb⟩
          · rintro ⟨c2, post, he, hb⟩
            injection he with h1 h2
            refine ⟨by simp [h1], (ih cs).mpr ⟨c2, post, h2, hb⟩⟩

lemma kwSearch_iff (kw t : List Char) :
    kwSearch kw t = true ↔
      ∃ pre c1 c2 post, t = pre ++ c1 :: (kw ++ c2 :: post) ∧
        isBound c1 = true ∧ isBound c2 = true := by
  induction t with
  | nil =>
      simp only [kwSearch]
      constructor
      · intro h
        exact absurd h (by simp)
      · rintro ⟨pre, c1, c2, post, he, _, _⟩
        rcases pre with _ | ⟨d, pre2⟩ <;> exact absurd he (by simp)
  | cons c rest ih =>
      rw [kwSearch, Bool.or_eq_true, Bool.and_eq_true, kwHere_iff, ih]
      constructor
      · rintro (⟨hc, c2, post, he, hb⟩ | ⟨pre, c1, c2, post, he, hb1, hb2⟩)
        · exact ⟨[], c, c2, post, by rw [he, List.nil_append], hc, hb⟩
        · exact ⟨c :: pre, c1, c2, post, by rw [List.cons_append, he], hb1, hb2⟩
      · rintro ⟨pre, c1, c2, post, he, hb1, hb2⟩
        cases pre with
        | nil =>
            rw [List.nil_append] at he
            injection he with h1 h2
            left
            exact ⟨by rw [h1]; exact hb1, c2, post, h2, hb2⟩
        | cons d pre2 =>
            rw [List.cons_append] at he
            injection he with h1 h2
            right
            exact ⟨pre2, c1, c2, post, h2, hb1, hb2⟩

lemma occursBounded_iff (kw text : String) :
    OccursBounded kw text ↔ kwSearch kw.data (strLower text) = true := by
  unfold OccursBounded
  exact (kwSearch_iff kw.data (strLower text)).symm

lemma compileKw_ordinary (kw : List Char) (h : ∀ c ∈ kw, regexOrdinary c = true) :
    compileKw kw = some (kw.map RElem.lit) := by
  induction kw with
  | nil => rfl
  | cons c cs ih =>
      have hc : regexOrdinary c = true := h c (List.mem_cons_self c cs)
      have hdot : (c == '.') = false := by
        cases hcd : c == '.'
        · rfl
        · rw [regexOrdinary, hcd] at hc
          simp at hc
      rw [List.map_cons, compileKw, if_neg (by simp [hdot]), if_pos hc,
        ih (fun x hx => h x (List.mem_cons_of_mem c hx))]
      rfl

lemma elemsHere_lit (kw rest : List Char) :
    elemsHere (kw.map RElem.lit) rest = kwHere kw rest := by
  induction kw generalizing rest with
  | nil => cases rest <;> rfl
  | cons k ks ih =>
      cases rest with
      | nil => rfl
      | cons c cs =>
          rw [List.map_cons, elemsHere, kwHere, ih]
          rfl

lemma reSearch_lit (kw t : List Char) :
    reSearch (kw.map RElem.lit) t = kwSearch kw t := by
  induction t with
  | nil => rfl
  | cons c rest ih => rw [reSearch, kwSearch, elemsHere_lit, ih]

lemma kwSearchRe_ordinary (kw t : List Char) (h : ∀ c ∈ kw, regexOrdinary c = true) :
    kwSearchRe kw t = some (kwSearch kw t) := by
  rw [kwSearchRe, compileKw_ordinary kw h]
  simp [reSearch_lit]

lemma checkReKws_ordinary (rl : Int) (textL : List Char) (kws : List String)
    (h : ∀ kw ∈ kws, ∀ c ∈ kw.data, regexOrdinary c = true) :
    CheckForKeywordExactMatchReKws rl textL kws =
      some (CheckForKeywordExactMatchKws rl textL kws) := by
  induction kws with
  | nil => rfl
  | cons kw rest ih =>
      have hkw := h kw (List.mem_cons_self kw rest)
      have hrest := fun kw2 h2 => h kw2 (List.mem_cons_of_mem kw h2)
      rw [CheckForKeywordExactMatchReKws, CheckForKeywordExactMatchKws,
        kwSearchRe_ordinary kw.data textL hkw]
      cases hs : kwSearch kw.data textL
      · simp only [hs]
        exact ih hrest
      · simp [hs]

/-- Counterexample to claim C3 as stated: the source splices the keyword
raw into the regex, so in keyword a.c the dot matches any character
other than a newline; on text " a c " the produced function returns the
label 2 although a.c has no occurrence as a literal string in the text,
where the claim demands ABSTAIN. -/
theorem keyword_exact_match_literal_cex :
    CheckForKeywordExactMatchRe ["a.c"] 2 ⟨" a c ", []⟩ = some 2 ∧
      ¬ OccursBounded "a.c" " a c " := by
  constructor
  · decide
  · intro h
    exact absurd ((occursBounded_iff "a.c" " a c ").mp h) (by decide)

/-- Claim C3, amended: restricted to keyword lists whose keywords
consist only of regex-ordinary characters, which the source splices
raw into its regex pattern, the keyword presence function returns
ReturnLabel exactly when some keyword of the list occurs literally in
the lowercased document text bounded on both sides by a character
outside [a-z0-9], scanning keywords in list order, and abstains when no
keyword has such an occurrence; with the sentinel excluded as a label
the two directions are a biconditional. -/
theorem keyword_exact_match_regex_semantics (kws : List String) (rl : Int) (doc : SpacyDoc)
    (hord : ∀ kw ∈ kws, ∀ c ∈ kw.data, regexOrdinary c = true) :
    ((∃ kw ∈ kws, OccursBounded kw doc.text) →
      CheckForKeywordExactMatchRe kws rl doc = some rl) ∧
    ((¬ ∃ kw ∈ kws, OccursBounded kw doc.text) →
      CheckForKeywordExactMatchRe kws rl doc = some ABSTAIN) ∧
    (rl ≠ ABSTAIN →
      (CheckForKeywordExactMatchRe kws rl doc = some rl ↔
        ∃ kw ∈ kws, OccursBounded kw doc.text)) := by
  have hagree : CheckForKeywordExactMatchRe kws rl doc =
      some (CheckForKeywordExactMatchKws rl (strLower doc.text) kws) :=
    checkReKws_ordinary rl (strLower doc.text) kws hord
  have hany : (∃ kw ∈ kws, OccursBounded kw doc.text) ↔
      kws.any (fun kw => kwSearch kw.data (strLower doc.text)) = true := by
    rw [List.any_eq_true]
    constructor
    · rintro ⟨kw, hm, ho⟩
      exact ⟨kw, hm, (occursBounded_iff kw doc.text).mp ho⟩
    · rintro ⟨kw, hm, hs⟩
      exact ⟨kw, hm, (occursBounded_iff kw doc.text).mpr hs⟩
  rw [hagree, checkForKeywordExactMatchKws_eq]
  by_cases h : kws.any (fun kw => kwSearch kw.data (strLower doc.text))
  · refine ⟨fun _ => by simp [h], fun hno => absurd (hany.mpr h) hno, fun hrl => ?_⟩
    simp [h, hany]
  · refine ⟨fun hyes => absurd (hany.mp hyes) (by simp [h]), fun _ => by simp [h],
      fun hrl => ?_⟩
    rw [if_neg (by simp [h])]
    constructor
    · intro he
      exact absurd (Option.some.inj he).symm hrl
    · intro hc
      exact absurd (hany.mp hc) (by simp [h])

/-- Witness for the amended C3 on the end-to-end scenario from the spec:
keyword fraud, made of regex-ordinary characters, with label 2 fires on
a document containing a bounded occurrence. -/
theorem keyword_exact_match_regex_semantics_w :
    CheckForKeywordExactMatchRe ["fraud"] 2 ⟨"we detected fraud here", []⟩ = some 2 :=
  (keyword_exact_match_regex_semantics ["fraud"] 2 ⟨"we detected fraud here", []⟩
      (by decide)).1
    ⟨"fraud", by simp, (occursBounded_iff "fraud" "we detected fraud here").mpr (by decide)⟩

lemma gazetteerMax_eq_max (f : String → String → Nat) (s : String) (kws : List String)
    (m0 : Nat) : gazetteerMax f s kws m0 = max m0 (listScoreMax f s kws) := by
  unfold gazetteerMax listScoreMax
  generalize kws.dedup = l
  induction l generalizing m0 with
  | nil => simp
  | cons a l ih =>
      simp only [List.foldl_cons, List.foldr_cons]
      rw [ih]
      split <;> omega

lemma fuzzyEnts_eq_ref (f : String → String → Nat) (kws : List String) (tag : String)
    (th rl : Int) :
    ∀ (l : List Ent) (m0 : Nat), ((m0 : Int) < th ∨ th ≤ 0) →
      CheckForNamedEntityFuzzyMatchEnts f kws tag th rl m0 l =
        FuzzyMatchRefEnts f kws tag th rl l := by
  intro l
  induction l with
  | nil => intro m0 _; rfl
  | cons e rest ih =>
      intro m0 h
      have hgaz := gazetteerMax_eq_max f e.text kws m0
      rcases h with h | h
      · by_cases he : e.label_ == tag
        · by_cases hth : (gazetteerMax f e.text kws m0 : Int) ≥ th
          · have href : (listScoreMax f e.text kws : Int) ≥ th := by omega
            simp [CheckForNamedEntityFuzzyMatchEnts, FuzzyMatchRefEnts, he, hth, href]
          · have href : ¬ (listScoreMax f e.text kws : Int) ≥ th := by omega
            have hrec := ih (gazetteerMax f e.text kws m0) (Or.inl (by omega))
            simp [CheckForNamedEntityFuzzyMatchEnts, FuzzyMatchRefEnts, he, hth, href, hrec]
        · have hrec := ih m0 (Or.inl h)
          simp [CheckForNamedEntityFuzzyMatchEnts, FuzzyMatchRefEnts, he, hrec]
      · by_cases he : e.label_ == tag
        · have hth : (gazetteerMax f e.text kws m0 : Int) ≥ th := by omega
          have href : (listScoreMax f e.text kws : Int) ≥ th := by omega
          simp [CheckForNamedEntityFuzzyMatchEnts, FuzzyMatchRefEnts, he, hth, href]
        · have hrec := ih m0 (Or.inr h)
          simp [CheckForNamedEntityFuzzyMatchEnts, FuzzyMatchRefEnts, he, hrec]

/-- Claim C4: on every document and configuration the fuzzy matcher of
the source (whose running maximum is initialized once and never reset
between entities) returns exactly what the reference algorithm of the
spec returns (per-entity maximum over the deduplicated lowercased
gazetteer, short-circuiting at the first entity reaching the
threshold). -/
theorem fuzzy_match_matches_ref (f : String → String → Nat) (kws : List String)
    (tag : String) (th rl : Int) (doc : SpacyDoc) :
    CheckForNamedEntityFuzzyMatch f kws tag th rl doc =
      FuzzyMatchRef f kws tag th rl doc := by
  unfold CheckForNamedEntityFuzzyMatch FuzzyMatchRef
  apply fuzzyEnts_eq_ref
  omega

lemma fuzzyEnts_threshold_nonpos (f : String → String → Nat) (kws : List String)
    (tag : String) (th rl : Int) (hth : th ≤ 0) :
    ∀ (l : List Ent) (m0 : Nat), (∃ e ∈ l, e.label_ = tag) →
      CheckForNamedEntityFuzzyMatchEnts f kws tag th rl m0 l = rl := by
  intro l
  induction l with
  | nil =>
      intro m0 hex
      obtain ⟨e, hm, _⟩ := hex
      exact absurd hm (List.not_mem_nil e)
  | cons e rest ih =>
      intro m0 hex
      by_cases he : e.label_ == tag
      · have hge : (gazetteerMax f e.text kws m0 : Int) ≥ th := by omega
        simp [CheckForNamedEntityFuzzyMatchEnts, he, hge]
      · obtain ⟨e0, hm, htag⟩ := hex
        have hne : e0 ∈ rest := by
          rcases List.mem_cons.mp hm with rfl | hm0
          · exact absurd (by simp [htag]) he
          · exact hm0
        have hrec := ih m0 ⟨e0, hne, htag⟩
        simp [CheckForNamedEntityFuzzyMatchEnts, he, hrec]

/-- Claim C9: with a threshold at or below 0, the fuzzy matcher returns
ReturnLabel on any document containing at least one entity of the
target tag, regardless of the gazetteer contents, because the running
maximum starts at 0 and 0 is already at threshold. -/
theorem fuzzy_threshold_nonpos_fires (f : String → String → Nat) (kws : List String)
    (tag : String) (th rl : Int) (doc : SpacyDoc) (hth : th ≤ 0)
    (hex : ∃ e ∈ doc.ents, e.label_ = tag) :
    CheckForNamedEntityFuzzyMatch f kws tag th rl doc = rl :=
  fuzzyEnts_threshold_nonpos f kws tag th rl hth doc.ents 0 hex

/-- Witness for C9 with an empty gazetteer, threshold 0 and one entity
of the target tag. -/
theorem fuzzy_threshold_nonpos_fires_w :
    CheckForNamedEntityFuzzyMatch (fun _ _ => 0) [] "ORG" 0 1
      ⟨"acme filed a report", [⟨"Acme", "ORG"⟩]⟩ = 1 :=
  fuzzy_threshold_nonpos_fires (fun _ _ => 0) [] "ORG" 0 1
    ⟨"acme filed a report", [⟨"Acme", "ORG"⟩]⟩ (by omega)
    ⟨⟨"Acme", "ORG"⟩, by simp, rfl⟩

/-- Claim C7: each builder reads every one of its required keys at
construction time, so construction succeeds exactly when all required
keys are present; a missing key makes the builder itself fail before
the produced function is ever invoked, and a successfully produced
function is a total function of the document that consults no
configuration key. -/
theorem builders_fail_fast (textblob : String → Sentiment)
    (f : String → String → Nat) (k : Kwargs) :
    ((NERTagPresence k).isSome ↔
      (k.LabelingFunctionName.isSome ∧ k.NERTag.isSome ∧ k.ReturnLabel.isSome)) ∧
    ((NERTagAbsence k).isSome ↔
      (k.LabelingFunctionName.isSome ∧ k.NERTag.isSome ∧ k.ReturnLabel.isSome)) ∧
    ((SentimentChecker textblob k).isSome ↔
      (k.LabelingFunctionName.isSome ∧ k.SubjectivityLower.isSome ∧
        k.SubjectivityUpper.isSome ∧ k.PolarityLower.isSome ∧ k.PolarityUpper.isSome ∧
        k.ReturnLabel.isSome)) ∧
    ((KeywordPresenceExactMatch k).isSome ↔
      (k.LabelingFunctionName.isSome ∧ k.ListOfKeywords.isSome ∧ k.ReturnLabel.isSome)) ∧
    ((NamedEntityFuzzyMatch f k).isSome ↔
      (k.LabelingFunctionName.isSome ∧ k.ListOfKeywords.isSome ∧ k.ReturnLabel.isSome ∧
        k.FuzzyMatchThreshold.isSome ∧ k.NERTag.isSome)) ∧
    ((KeywordAbsenceExactMatch k).isSome ↔
      (k.LabelingFunctionName.isSome ∧ k.ListOfKeywords.isSome ∧ k.ReturnLabel.isSome)) := by
  obtain ⟨n, tg, rl, sl, su, pl, pu, kws, th⟩ := k
  refine ⟨?_, ?_, ?_, ?_, ?_, ?_⟩
  · cases n <;> cases tg <;> cases rl <;> simp [NERTagPresence]
  · cases n <;> cases tg <;> cases rl <;> simp [NERTagAbsence]
  · cases n <;> cases sl <;> cases su <;> cases pl <;> cases pu <;> cases rl <;>
      simp [SentimentChecker]
  · cases n <;> cases kws <;> cases rl <;> simp [KeywordPresenceExactMatch]
  · cases n <;> cases kws <;> cases rl <;> cases th <;> cases tg <;>
      simp [NamedEntityFuzzyMatch]
  · cases n <;> cases kws <;> cases rl <;> simp [KeywordAbsenceExactMatch]

end SnorCall
